import Mathlib

/-!
# Verification of the snowpack build-pipeline configuration resolver

A shallow embedding of `src/plugins.ts`: the directive classifier
(`parseScript`), the mount-command parser, the script-directive resolver and
config-plugin merger (`loadPlugins`), and the pipeline indexer
(`createBuildPipeline`), together with theorems settling the specification
claims about them.

JavaScript strings are modelled through their character lists (`String.data`),
so that every operation is structurally recursive and kernel-computable.
JavaScript runtime behaviour is embedded faithfully, including:
* `` `.${ext}`.replace(/^\./, '') `` round-trips to `ext` (prepending a dot and
  then removing one leading dot is the identity), so the "ensure extensions all
  have preceding dots" comment in the source is not what the code does;
* reading the property `loadPlugins[pluginName]` of the enclosing function
  object yields `undefined`, and destructuring `undefined` throws a
  `TypeError` (modelled as an aborting error);
* reading the undeclared identifier `name` (line `if (!name)`) throws a
  `ReferenceError` in Node (modelled as an aborting error);
* `handleError` calls `process.exit(1)`, so every reported configuration error
  aborts the whole resolution pass (modelled with `Except`).

Dynamic module loading (`require.resolve` + factory invocation) is the sole
I/O boundary; it is abstracted as an environment `PluginEnv` of load
functions, together with the external constant `DEV_DEPENDENCIES_DIR`
(imported from `./util`, outside this module).
-/

/-- A plugin's `input`/`output` field: TypeScript `string | string[]`. -/
inductive PluginInput where
  | str (s : String)
  | list (l : List String)
deriving Repr, DecidableEq

/-- A loaded plugin instance. `name`, `input`, `output` and
`defaultBuildScript` are the fields `loadPlugins` reads or writes; a plugin's
transform/lifecycle hooks are opaque to the resolver and are not modelled.
`Option` models fields that may be `undefined` in JavaScript. -/
structure SnowpackPlugin where
  name : Option String
  input : Option PluginInput
  output : Option PluginInput
  defaultBuildScript : Option String
deriving Repr, DecidableEq

/-- `type RunCmd = {id: string; cmd: string}`. -/
structure RunCmd where
  id : String
  cmd : String
deriving Repr, DecidableEq

/-- `type MountedDir = {id: string; fromDisk: string; toUrl: string}`. -/
structure MountedDir where
  id : String
  fromDisk : String
  toUrl : String
deriving Repr, DecidableEq

/-- Opaque plugin-specific options object (`ref[1]`); the resolver only
passes it through to the loader, so its contents are a plain key/value list. -/
def PluginOptions := List (String × String)
deriving Repr, DecidableEq

/-- The empty options object `{}` passed for a bare specifier. -/
def PluginOptions.empty : PluginOptions := []

/-- One entry of `config.plugins`: either a bare module specifier or a
`[specifier, options]` pair. -/
inductive PluginRef where
  | bare (specifier : String)
  | withOptions (specifier : String) (options : PluginOptions)
deriving Repr, DecidableEq

/-- `Array.isArray(ref) ? ref[0] : ref`. -/
def PluginRef.specifier : PluginRef → String
  | .bare s => s
  | .withOptions s _ => s

/-- `Array.isArray(ref) ? ref[1] : {}`. -/
def PluginRef.options : PluginRef → PluginOptions
  | .bare _ => PluginOptions.empty
  | .withOptions _ o => o

/-- The slice of `SnowpackConfig` that `loadPlugins` reads: `config.scripts`
(an object, i.e. a key/command association list in insertion order) and
`config.plugins`. -/
structure SnowpackConfig where
  scripts : List (String × String)
  plugins : List PluginRef

/-- The capability environment for dynamic module loading.
`softLoad` models `loadPluginFromScript` (resolution/invocation failure
swallowed, hence `Option`); `hardLoad` models `loadPluginFromConfig`
(failure throws, modelled as `none` which the resolver turns into an aborting
error). `devDependenciesDir` is the external constant `DEV_DEPENDENCIES_DIR`
from `./util`. -/
structure PluginEnv where
  softLoad : String → Option SnowpackPlugin
  hardLoad : String → PluginOptions → Option SnowpackPlugin
  devDependenciesDir : String

/-- The aborting outcomes of a resolution pass: each `handleError` call site
(`process.exit`), plus the two JavaScript runtime exceptions the code throws
and the propagated hard-load failure. -/
inductive ResolveError where
  /-- `extMatch.split` on `undefined`: the directive key had no `:`. -/
  | scriptKeyTypeError (target : String)
  /-- Line 71 `let {input, output} = loadPlugins[pluginName]`: the property
  of the function object is `undefined`, and destructuring it throws. -/
  | typeErrorDuplicateBuildPlugin (specifier : String)
  /-- `scripts[target] must use the mount command`. -/
  | mountMustUseMountCommand (target : String)
  /-- `scripts[target] must use the format: "mount dir [--to /PATH]"`. -/
  | mountBadFormat (target : String)
  /-- `"--to .." must be a URL path, and start with a "/"`. -/
  | mountToNotUrlPath (target : String)
  /-- `Failed to load plugin ..` for a `bundle:` directive. -/
  | bundlerLoadFailure (specifier : String)
  /-- `[name]: loaded in both scripts and plugins.` -/
  | ambiguousPluginRegistration (specifier : String)
  /-- `loadPluginFromConfig` threw (unresolvable specifier / factory throw). -/
  | pluginLoadFailure (specifier : String)
  /-- `[name]: missing input options`. -/
  | missingPluginInput (specifier : String)
  /-- Line 173 `if (!name)`: `name` is not declared anywhere in scope, so
  evaluating it throws a `ReferenceError` in Node. -/
  | referenceErrorName (specifier : String)
deriving Repr, DecidableEq

/-- `{plugins, bundler, runCommands, buildCommands, mountedDirs}`.
`buildCommands` is a `Record<string, RunCmd>` kept as an association list in
JavaScript object key order. -/
structure LoadResult where
  plugins : List SnowpackPlugin
  bundler : Option SnowpackPlugin
  runCommands : List RunCmd
  buildCommands : List (String × RunCmd)
  mountedDirs : List MountedDir
deriving Repr, DecidableEq

deriving instance DecidableEq for Except

/-! ## JavaScript string primitives (char-list based) -/

/-- JS `String.prototype.toLowerCase` (ASCII range, which is all the resolver
compares). Note the source lower-cases the *whole* directive key. -/
def jsToLowerCase (s : String) : String :=
  String.mk (s.data.map Char.toLower)

/-- JS `String.prototype.trim`. -/
def jsTrim (s : String) : String :=
  String.mk (((s.data.dropWhile Char.isWhitespace).reverse.dropWhile
    Char.isWhitespace).reverse)

/-- Worker for `jsSplitChar`: accumulates the current (reversed) token. -/
def splitCharAux (sep : Char) : List Char → List Char → List String
  | [], cur => [String.mk cur.reverse]
  | c :: cs, cur =>
    if c = sep then String.mk cur.reverse :: splitCharAux sep cs []
    else splitCharAux sep cs (c :: cur)

/-- JS `String.prototype.split` with a single-character separator string:
`"a:b:c".split(':') = ["a","b","c"]`, `"".split(':') = [""]`. -/
def jsSplitChar (sep : Char) (s : String) : List String :=
  splitCharAux sep s.data []

/-- Worker for `splitWs`: `some cur` means a token `cur` (reversed) is being
accumulated, `none` means we are inside a whitespace run just after emitting
a token. -/
def wsSplitAux : List Char → Option (List Char) → List String
  | [], some cur => [String.mk cur.reverse]
  | [], none => [""]
  | c :: cs, st =>
    if c.isWhitespace then
      match st with
      | some cur => String.mk cur.reverse :: wsSplitAux cs none
      | none => wsSplitAux cs none
    else wsSplitAux cs (some (c :: st.getD []))

/-- JS `String.prototype.split(/\s+/)`: split on whitespace runs, keeping the
empty leading/trailing tokens JavaScript produces
(`" a ".split(/\s+/) = ["", "a", ""]`). -/
def splitWs (s : String) : List String :=
  wsSplitAux s.data (some [])

/-- JS `s[0] === c` (first-character test; `false` on the empty string, which
matches `undefined !== c` for a non-`undefined` `c`). -/
def jsFirstCharIs (s : String) (c : Char) : Bool :=
  s.data.head? == some c

/-- The spread of `new Set(list)` back into an array: deduplication keeping
the first occurrence, in insertion order. -/
def dedupFirst (l : List String) : List String :=
  l.foldl (fun acc x => if x ∈ acc then acc else acc ++ [x]) []

/-! ## Directive Classifier (`parseScript`) -/

/-- JS `String.prototype.replace(/^\./, '')`: remove one leading dot. -/
def jsStripOneLeadingDot (s : String) : String :=
  match s.data with
  | '.' :: rest => String.mk rest
  | _ => s

/-- One extension token as mapped in `parseScript`:
`` `.${ext}`.replace(/^\./, '').trim() ``. Prepending a dot and then removing
one leading dot is the identity, so this normalizes nothing: it only trims. -/
def mapExt (ext : String) : String :=
  jsTrim (jsStripOneLeadingDot ("." ++ ext))

/-- The result of `parseScript`. -/
structure ParsedScript where
  scriptType : String
  extensions : List String
deriving Repr, DecidableEq

/-- `parseScript` (src/plugins.ts:15-21):
`const [scriptType, extMatch] = script.toLowerCase().split(':')` followed by
`[...new Set(extMatch.split(',').map(...))]`. When the key contains no `:`,
`extMatch` is `undefined` and `extMatch.split` throws (`none` here). -/
def parseScript (script : String) : Option ParsedScript :=
  match jsSplitChar ':' (jsToLowerCase script) with
  | scriptType :: extMatch :: _ =>
    some ⟨scriptType, dedupFirst ((jsSplitChar ',' extMatch).map mapExt)⟩
  | _ => none

/-! ## Mount Spec Parser (the `mount` case, src/plugins.ts:91-118) -/

/-- The value of the `to` key in the object `yargs-parser` returns:
absent, boolean `true` (a bare `--to` with no value), or a string. -/
inductive YargsTo where
  | absent
  | boolTrue
  | str (s : String)
deriving Repr, DecidableEq

/-- A minimal model of `yargs-parser` covering the grammar the mount command
uses: a token starting with `-` is a flag; a flag consumes the next token as
its string value unless that token also starts with `-` (then the flag is
boolean `true`); every other token is a positional argument collected into
`_`. Only the `to` key is observed by the caller, so only it is returned
(first occurrence wins; `--to=value` syntax and numeric coercion of
positionals are outside the modelled subset, which the theorems stay
within). -/
def yargsParseTo : List String → YargsTo × List String
  | [] => (.absent, [])
  | [t] =>
    if jsFirstCharIs t '-' then (if t = "--to" then .boolTrue else .absent, [])
    else (.absent, [t])
  | t :: v :: rest =>
    if jsFirstCharIs t '-' then
      if jsFirstCharIs v '-' then
        let r := yargsParseTo (v :: rest)
        (if t = "--to" then .boolTrue else r.1, r.2)
      else
        let r := yargsParseTo rest
        (if t = "--to" then .str v else r.1, r.2)
    else
      let r := yargsParseTo (v :: rest)
      (r.1, t :: r.2)

/-- JS truthiness of the `to` value (`to && ...`, `to || ...`). -/
def YargsTo.truthy : YargsTo → Bool
  | .absent => false
  | .boolTrue => true
  | .str s => s ≠ ""

/-- JS `to[0] === '/'` (on `true`, `to[0]` is `undefined`, never `'/'`). -/
def YargsTo.headIsSlash : YargsTo → Bool
  | .str s => jsFirstCharIs s '/'
  | _ => false

/-- The string the `to` value contributes to `dirUrl` when truthy (JS string
coercion; the non-string cases cannot reach this point). -/
def YargsTo.asString : YargsTo → String
  | .str s => s
  | .boolTrue => "true"
  | .absent => ""

/-- Segment collapsing of `path.posix.normalize`: drop `""` and `"."`
segments, resolve `".."` against the stack (at the root, `".."` above `/` is
dropped; in a relative path it is kept). -/
def collapseDots (isAbs : Bool) (segs : List String) : List String :=
  (segs.foldl (fun acc seg =>
    if seg = ".." then
      match acc with
      | [] => if isAbs then [] else [".."]
      | top :: restAcc => if top = ".." then seg :: acc else restAcc
    else seg :: acc) []).reverse

/-- `path.posix.normalize`: collapse `//`, `.` and `..`, preserving a
leading `/` and a trailing `/`. -/
def posixNormalize (p : String) : String :=
  if p = "" then "."
  else
    let isAbs := jsFirstCharIs p '/'
    let hasTrail := p.data.getLast? == some '/' && p.length > 1
    let segs := (jsSplitChar '/' p).filter (fun s => s != "" && s != ".")
    let out := collapseDots isAbs segs
    if out.isEmpty then
      if isAbs then "/" else if hasTrail then "./" else "."
    else
      (if isAbs then "/" else "") ++ String.intercalate "/" out ++
        (if hasTrail then "/" else "")

/-- The `mount` case of the script dispatch (src/plugins.ts:91-118):
tokenize `cmd` on whitespace, require the first token to be `mount`,
`shift()` it, hand the remaining tokens to `yargs`, validate, then build the
`MountedDir` from `cmdArr[0]` (after the shift) and `to`. For the reserved
id `mount:web_modules` the disk directory is forced to
`DEV_DEPENDENCIES_DIR`. -/
def parseMountCmd (env : PluginEnv) (target cmd : String) :
    Except ResolveError MountedDir :=
  let cmdArr := splitWs cmd
  if cmdArr.headD "" ≠ "mount" then
    .error (.mountMustUseMountCommand target)
  else
    let rest := cmdArr.drop 1
    let parsed := yargsParseTo rest
    let toVal := parsed.1
    if parsed.2.length ≠ 1 then .error (.mountBadFormat target)
    else if toVal.truthy && !toVal.headIsSlash then
      .error (.mountToNotUrlPath target)
    else
      let dirDisk :=
        if target = "mount:web_modules" then env.devDependenciesDir
        else rest.headD ""
      let dirUrl := if toVal.truthy then toVal.asString else "/" ++ rest.headD ""
      .ok ⟨target, posixNormalize (dirDisk ++ "/"), posixNormalize (dirUrl ++ "/")⟩

/-! ## Script Directive Resolver and Config Plugin Merger (`loadPlugins`) -/

/-- JS truthiness of an optional string field (`undefined` and `""` are
falsy). Used for `plugin.name`, `plugin.defaultBuildScript` and
`config.scripts['mount:web_modules']`. -/
def strTruthy : Option String → Bool
  | none => false
  | some s => s ≠ ""

/-- JS truthiness of `plugin.input` (`string | string[] | undefined`):
`undefined` and `""` are falsy; every array — even `[]` — is truthy. -/
def inputTruthy : Option PluginInput → Bool
  | none => false
  | some (.str s) => s ≠ ""
  | some (.list _) => true

/-- JS object property write `m[k] = v`: overwrite in place when the key
exists (keeping its position in key order), otherwise append. -/
def recordSet {α : Type} (m : List (String × α)) (k : String) (v : α) :
    List (String × α) :=
  if (m.lookup k).isSome then
    m.map (fun kv => if kv.1 = k then (k, v) else kv)
  else m ++ [(k, v)]

/-- The accumulator buckets mutated across the `config.scripts` pass:
`scriptPlugins` (an object keyed by specifier, in insertion order),
`runCommands`, `buildCommands`, `mountedDirs` and the `bundler` slot. -/
structure ScriptState where
  scriptPlugins : List (String × SnowpackPlugin)
  runCommands : List RunCmd
  buildCommands : List (String × RunCmd)
  mountedDirs : List MountedDir
  bundler : Option SnowpackPlugin
deriving Repr, DecidableEq

/-- The state before any directive is processed. -/
def initialScriptState : ScriptState := ⟨[], [], [], [], none⟩

/-- A `forEach` body that can abort the process: `.error` models
`process.exit` (via `handleError`) or an uncaught exception, which stops the
whole pass immediately. -/
def exceptFoldl {σ α : Type} (f : σ → α → Except ResolveError σ) :
    σ → List α → Except ResolveError σ
  | st, [] => .ok st
  | st, a :: l =>
    match f st a with
    | .error e => .error e
    | .ok st' => exceptFoldl f st' l

/-- One step of the `config.scripts.forEach` dispatch (src/plugins.ts:56-134).
The `build` case with an already-registered specifier models line 71,
`let {input, output} = loadPlugins[pluginName]`: `loadPlugins` there is the
enclosing *function object*, whose `pluginName` property is `undefined`, so
the destructuring throws a `TypeError` (and even absent the throw, the
unioned arrays would only be bound to local variables, never stored back).
Properties every function object does have (`name`, `length`, ...) are not
modelled as specifiers. An unknown `scriptType` falls through the `switch`
and leaves the state unchanged. -/
def processScript (env : PluginEnv) (st : ScriptState)
    (entry : String × String) : Except ResolveError ScriptState :=
  let target := entry.1
  let cmd := entry.2
  match parseScript target with
  | none => .error (.scriptKeyTypeError target)
  | some parsed =>
    if parsed.scriptType = "run" then
      .ok {st with runCommands := st.runCommands ++ [⟨target, cmd⟩]}
    else if parsed.scriptType = "build" then
      match env.softLoad cmd with
      | some plugin =>
        if (st.scriptPlugins.lookup cmd).isSome then
          .error (.typeErrorDuplicateBuildPlugin cmd)
        else
          .ok {st with scriptPlugins := st.scriptPlugins ++
            [(cmd, {plugin with
              name := some cmd,
              input := some (.list parsed.extensions),
              output := some (.list parsed.extensions)})]}
      | none =>
        let bc := parsed.extensions.foldl
          (fun acc ext => recordSet acc ext ⟨target, cmd⟩) st.buildCommands
        .ok {st with buildCommands := bc}
    else if parsed.scriptType = "mount" then
      match parseMountCmd env target cmd with
      | .error e => .error e
      | .ok m => .ok {st with mountedDirs := st.mountedDirs ++ [m]}
    else if parsed.scriptType = "bundle" then
      match env.softLoad cmd with
      | none => .error (.bundlerLoadFailure cmd)
      | some b =>
        let b' := if strTruthy b.name then b else {b with name := some cmd}
        .ok {st with bundler := some b'}
    else .ok st

/-- The whole `config.scripts` pass. -/
def processScripts (env : PluginEnv) (config : SnowpackConfig) :
    Except ResolveError ScriptState :=
  exceptFoldl (processScript env) initialScriptState config.scripts

/-- One step of the `config.plugins.forEach` merger (src/plugins.ts:148-179).
After the exclusivity check, the hard load, the missing-input check and the
`defaultBuildScript` backfill (whose own `parseScript` call can throw on a
key without `:`), control reaches line 173, `if (!name) {...}`: `name` is not
declared anywhere in scope, so evaluating it throws a `ReferenceError` in
Node — no explicitly configured plugin ever reaches the `plugins.push` on
line 178. -/
def processPluginRef (env : PluginEnv)
    (scriptPlugins : List (String × SnowpackPlugin))
    (_acc : List SnowpackPlugin) (ref : PluginRef) :
    Except ResolveError (List SnowpackPlugin) :=
  let pluginName := ref.specifier
  if (scriptPlugins.lookup pluginName).isSome then
    .error (.ambiguousPluginRegistration pluginName)
  else
    match env.hardLoad pluginName ref.options with
    | none => .error (.pluginLoadFailure pluginName)
    | some plugin =>
      if !strTruthy plugin.defaultBuildScript && !inputTruthy plugin.input then
        .error (.missingPluginInput pluginName)
      else if strTruthy plugin.defaultBuildScript && !inputTruthy plugin.input
      then
        match parseScript (plugin.defaultBuildScript.getD "") with
        | none => .error (.scriptKeyTypeError (plugin.defaultBuildScript.getD ""))
        | some _ => .error (.referenceErrorName pluginName)
      else .error (.referenceErrorName pluginName)

/-- `loadPlugins` (src/plugins.ts:24-188): run the scripts pass, collect the
script-derived plugins, append the synthetic `mount:web_modules` entry when
`config.scripts['mount:web_modules']` is falsy (note the literal
`toUrl: '/web_modules'`, with no trailing slash and no normalization), then
run the explicit-plugin merger pass. -/
def loadPlugins (config : SnowpackConfig) (env : PluginEnv) :
    Except ResolveError LoadResult :=
  match processScripts env config with
  | .error e => .error e
  | .ok st =>
    let pluginsAfterScripts := st.scriptPlugins.map (fun kv => kv.2)
    let mountedDirs :=
      if strTruthy (config.scripts.lookup "mount:web_modules") then
        st.mountedDirs
      else
        st.mountedDirs ++
          [⟨"mount:web_modules", env.devDependenciesDir, "/web_modules"⟩]
    match exceptFoldl (processPluginRef env st.scriptPlugins)
        pluginsAfterScripts config.plugins with
    | .error e => .error e
    | .ok finalPlugins =>
      .ok ⟨finalPlugins, st.bundler, st.runCommands, st.buildCommands,
        mountedDirs⟩

/-! ## Pipeline Indexer (`createBuildPipeline`, src/plugins.ts:191-201) -/

/-- `Array.isArray(plugin.input) ? plugin.input : [plugin.input]`. A missing
`input` yields `[undefined]`, and `undefined` used as an object key is
coerced to the string `"undefined"`. -/
def pluginInputs (plugin : SnowpackPlugin) : List String :=
  match plugin.input with
  | some (.list l) => l
  | some (.str s) => [s]
  | none => ["undefined"]

/-- The inner statement of `createBuildPipeline`:
`if (pipeline[ext]) pipeline[ext].push(plugin); else pipeline[ext] = [plugin]`. -/
def pipelineAdd (plugin : SnowpackPlugin)
    (pl : List (String × List SnowpackPlugin)) (ext : String) :
    List (String × List SnowpackPlugin) :=
  match pl.lookup ext with
  | some seq => recordSet pl ext (seq ++ [plugin])
  | none => pl ++ [(ext, [plugin])]

/-- `createBuildPipeline`: for each plugin in list order, append it to the
pipeline sequence of every extension in its inputs, creating the sequence on
first use. The pipeline is a `Record<string, SnowpackPlugin[]>`, an
association list in key-creation order. -/
def createBuildPipeline (plugins : List SnowpackPlugin) :
    List (String × List SnowpackPlugin) :=
  plugins.foldl (fun pipeline plugin =>
    (pluginInputs plugin).foldl (pipelineAdd plugin) pipeline) []

/-! ## Basic lemmas -/

theorem dedupFirst_loop_nodup (l acc : List String) (h : acc.Nodup) :
    (l.foldl (fun acc x => if x ∈ acc then acc else acc ++ [x]) acc).Nodup := by
  induction l generalizing acc with
  | nil => exact h
  | cons x xs ih =>
    simp only [List.foldl_cons]
    by_cases hx : x ∈ acc
    · simpa [hx] using ih acc h
    · have hn : (acc ++ [x]).Nodup := by
        simp only [List.nodup_append, List.nodup_cons, List.not_mem_nil,
          not_false_iff, List.nodup_nil, and_true, true_and]
        exact ⟨h, fun a ha hax => hx ((List.mem_singleton.mp hax) ▸ ha)⟩
      simpa [hx] using ih (acc ++ [x]) hn

theorem dedupFirst_nodup (l : List String) : (dedupFirst l).Nodup :=
  dedupFirst_loop_nodup l [] List.nodup_nil

theorem dedupFirst_loop_ne_nil (l acc : List String) (h : acc ≠ []) :
    l.foldl (fun acc x => if x ∈ acc then acc else acc ++ [x]) acc ≠ [] := by
  induction l generalizing acc with
  | nil => exact h
  | cons x xs ih =>
    simp only [List.foldl_cons]
    by_cases hx : x ∈ acc
    · simpa [hx] using ih acc h
    · simpa [hx] using ih (acc ++ [x]) (by simp)

theorem dedupFirst_ne_nil (l : List String) (h : l ≠ []) : dedupFirst l ≠ [] := by
  cases l with
  | nil => exact absurd rfl h
  | cons x xs =>
    unfold dedupFirst
    simp only [List.foldl_cons, List.not_mem_nil, if_false, List.nil_append]
    exact dedupFirst_loop_ne_nil xs [x] (by simp)

theorem splitCharAux_ne_nil (sep : Char) (cs cur) :
    splitCharAux sep cs cur ≠ [] := by
  induction cs generalizing cur with
  | nil => simp [splitCharAux]
  | cons c cs ih =>
    by_cases h : c = sep <;> simp only [splitCharAux, h, if_true, if_false] <;>
      simp [ih]

theorem jsSplitChar_ne_nil (sep : Char) (s : String) : jsSplitChar sep s ≠ [] :=
  splitCharAux_ne_nil sep s.data []

/-- The extension list `parseScript` returns is never the empty list
(`"".split(',')` is `[""]`, not `[]`). -/
theorem parseScript_extensions_ne_nil {s : String} {p : ParsedScript}
    (h : parseScript s = some p) : p.extensions ≠ [] := by
  unfold parseScript at h
  cases hsp : jsSplitChar ':' (jsToLowerCase s) with
  | nil => rw [hsp] at h; exact absurd h (by simp)
  | cons a rest =>
    cases rest with
    | nil => rw [hsp] at h; exact absurd h (by simp)
    | cons b rest2 =>
      rw [hsp] at h
      simp only [Option.some.injEq] at h
      rw [← h]
      apply dedupFirst_ne_nil
      simp only [ne_eq, List.map_eq_nil_iff]
      exact jsSplitChar_ne_nil ',' b

/-- The extension list `parseScript` returns has no duplicates
(the `new Set` spread). -/
theorem parseScript_extensions_nodup {s : String} {p : ParsedScript}
    (h : parseScript s = some p) : p.extensions.Nodup := by
  unfold parseScript at h
  cases hsp : jsSplitChar ':' (jsToLowerCase s) with
  | nil => rw [hsp] at h; exact absurd h (by simp)
  | cons a rest =>
    cases rest with
    | nil => rw [hsp] at h; exact absurd h (by simp)
    | cons b rest2 =>
      rw [hsp] at h
      simp only [Option.some.injEq] at h
      rw [← h]
      exact dedupFirst_nodup _

/-! ## Lemmas about the resolution pass -/

theorem exceptFoldl_ok_preserve {σ α : Type} {f : σ → α → Except ResolveError σ}
    {P : σ → Prop} :
    ∀ {l : List α} {st st' : σ},
      (∀ st a st', a ∈ l → P st → f st a = .ok st' → P st') →
      P st → exceptFoldl f st l = .ok st' → P st' := by
  intro l
  induction l with
  | nil =>
    intro st st' _ h hefl
    simp only [exceptFoldl, Except.ok.injEq] at hefl
    exact hefl ▸ h
  | cons a l ih =>
    intro st st' hstep h hefl
    unfold exceptFoldl at hefl
    cases hf : f st a with
    | error e => rw [hf] at hefl; exact absurd hefl (by simp)
    | ok st1 =>
      rw [hf] at hefl
      exact ih (fun s₁ b s₂ hb => hstep s₁ b s₂ (List.mem_cons_of_mem a hb))
        (hstep st a st1 (List.mem_cons_self a l) h hf) hefl

theorem exceptFoldl_ok_of_all_error {σ α : Type}
    {f : σ → α → Except ResolveError σ}
    (hf : ∀ st a, ∃ e, f st a = .error e) {l : List α} {st st' : σ}
    (h : exceptFoldl f st l = .ok st') : l = [] ∧ st' = st := by
  cases l with
  | nil =>
    simp only [exceptFoldl, Except.ok.injEq] at h
    exact ⟨rfl, h.symm⟩
  | cons a l =>
    obtain ⟨e, he⟩ := hf st a
    rw [exceptFoldl, he] at h
    exact absurd h (by simp)

/-- Every explicitly configured plugin reference aborts the pass: either one
of the three `handleError` checks fires, or the hard load / the backfill
`parseScript` call throws, or — in every remaining case — evaluating the
undeclared identifier `name` on line 173 throws a `ReferenceError`. -/
theorem processPluginRef_errs (env : PluginEnv)
    (scriptPlugins : List (String × SnowpackPlugin))
    (acc : List SnowpackPlugin) (ref : PluginRef) :
    ∃ e, processPluginRef env scriptPlugins acc ref = .error e := by
  unfold processPluginRef
  by_cases h1 : (scriptPlugins.lookup ref.specifier).isSome
  · exact ⟨.ambiguousPluginRegistration ref.specifier, by simp [h1]⟩
  · simp only [h1, if_false]
    cases h2 : env.hardLoad ref.specifier ref.options with
    | none => exact ⟨.pluginLoadFailure ref.specifier, rfl⟩
    | some plugin =>
      by_cases h3 :
          (!strTruthy plugin.defaultBuildScript && !inputTruthy plugin.input) = true
      · exact ⟨.missingPluginInput ref.specifier, by simp [h3]⟩
      · by_cases h4 :
            (strTruthy plugin.defaultBuildScript && !inputTruthy plugin.input) = true
        · cases h5 : parseScript (plugin.defaultBuildScript.getD "") with
          | none =>
            exact ⟨.scriptKeyTypeError (plugin.defaultBuildScript.getD ""),
              by simp [h3, h4, h5]⟩
          | some q =>
            exact ⟨.referenceErrorName ref.specifier, by simp [h3, h4, h5]⟩
        · exact ⟨.referenceErrorName ref.specifier, by simp [h3, h4]⟩

/-- Inversion of a *successful* `loadPlugins` run: the scripts pass
succeeded, the explicit plugin list must have been empty (no reference
survives line 173), the final plugin list is exactly the script-derived one,
and the mount list got the synthetic entry iff
`config.scripts['mount:web_modules']` was falsy. -/
theorem loadPlugins_ok_elim {config : SnowpackConfig} {env : PluginEnv}
    {res : LoadResult} (h : loadPlugins config env = .ok res) :
    ∃ st, processScripts env config = .ok st ∧ config.plugins = [] ∧
      res = ⟨st.scriptPlugins.map (fun kv => kv.2), st.bundler, st.runCommands,
        st.buildCommands,
        if strTruthy (config.scripts.lookup "mount:web_modules") then
          st.mountedDirs
        else st.mountedDirs ++
          [⟨"mount:web_modules", env.devDependenciesDir, "/web_modules"⟩]⟩ := by
  unfold loadPlugins at h
  cases hs : processScripts env config with
  | error e => rw [hs] at h; exact absurd h (by simp)
  | ok st =>
    rw [hs] at h
    simp only at h
    cases hp : exceptFoldl (processPluginRef env st.scriptPlugins)
        (st.scriptPlugins.map (fun kv => kv.2)) config.plugins with
    | error e => rw [hp] at h; exact absurd h (by simp)
    | ok finalPlugins =>
      rw [hp] at h
      simp only [Except.ok.injEq] at h
      obtain ⟨hnil, hfp⟩ :=
        exceptFoldl_ok_of_all_error (processPluginRef_errs env st.scriptPlugins) hp
      exact ⟨st, rfl, hnil, by rw [← h, hfp]⟩

/-- The `MountedDir` produced for a mount directive carries the directive
key as its `id`. -/
theorem parseMountCmd_id {env : PluginEnv} {t c : String} {m : MountedDir}
    (h : parseMountCmd env t c = .ok m) : m.id = t := by
  simp only [parseMountCmd] at h
  split at h
  · exact absurd h (by simp)
  · split at h
    · exact absurd h (by simp)
    · split at h
      · exact absurd h (by simp)
      · simp only [Except.ok.injEq] at h
        rw [← h]

/-- How one directive can change the `scriptPlugins` bucket: not at all, or
by appending one entry keyed by the command string, whose `name` is that
string and whose `input`/`output` are the directive's extension list. -/
theorem processScript_scriptPlugins {env : PluginEnv} {st : ScriptState}
    {entry : String × String} {st' : ScriptState}
    (h : processScript env st entry = .ok st') :
    st'.scriptPlugins = st.scriptPlugins ∨
    ∃ plugin p, env.softLoad entry.2 = some plugin ∧
      parseScript entry.1 = some p ∧
      st'.scriptPlugins = st.scriptPlugins ++
        [(entry.2,
          {plugin with name := some entry.2, input := some (.list p.extensions), output := some (.list p.extensions)})] := by
  simp only [processScript] at h
  cases hp : parseScript entry.1 with
  | none => rw [hp] at h; exact absurd h (by simp)
  | some p =>
    rw [hp] at h
    simp only at h
    by_cases h1 : p.scriptType = "run"
    · simp only [h1, if_true, Except.ok.injEq] at h
      subst h; left; rfl
    · simp only [h1, if_false] at h
      by_cases h2 : p.scriptType = "build"
      · simp only [h2, if_true] at h
        cases hl : env.softLoad entry.2 with
        | some plugin =>
          rw [hl] at h
          simp only at h
          by_cases h3 : (st.scriptPlugins.lookup entry.2).isSome
          · simp [h3] at h
          · simp only [h3, Bool.false_eq_true, if_false, Except.ok.injEq] at h
            subst h
            right
            exact ⟨plugin, p, rfl, rfl, rfl⟩
        | none =>
          rw [hl] at h
          simp only [Except.ok.injEq] at h
          subst h; left; rfl
      · simp only [h2, if_false] at h
        by_cases h4 : p.scriptType = "mount"
        · simp only [h4, if_true] at h
          cases hm : parseMountCmd env entry.1 entry.2 with
          | error e => rw [hm] at h; exact absurd h (by simp)
          | ok m =>
            rw [hm] at h
            simp only [Except.ok.injEq] at h
            subst h; left; rfl
        · simp only [h4, if_false] at h
          by_cases h5 : p.scriptType = "bundle"
          · simp only [h5, if_true] at h
            cases hb : env.softLoad entry.2 with
            | none => rw [hb] at h; exact absurd h (by simp)
            | some b =>
              rw [hb] at h
              simp only [Except.ok.injEq] at h
              subst h; left; rfl
          · simp only [h5, if_false, Except.ok.injEq] at h
            subst h; left; rfl

/-- How one directive can change the `mountedDirs` bucket: not at all, or by
appending one entry whose `id` is the directive key. -/
theorem processScript_mountedDirs {env : PluginEnv} {st : ScriptState}
    {entry : String × String} {st' : ScriptState}
    (h : processScript env st entry = .ok st') :
    st'.mountedDirs = st.mountedDirs ∨
    ∃ m, m.id = entry.1 ∧ st'.mountedDirs = st.mountedDirs ++ [m] := by
  simp only [processScript] at h
  cases hp : parseScript entry.1 with
  | none => rw [hp] at h; exact absurd h (by simp)
  | some p =>
    rw [hp] at h
    simp only at h
    by_cases h1 : p.scriptType = "run"
    · simp only [h1, if_true, Except.ok.injEq] at h
      subst h; left; rfl
    · simp only [h1, if_false] at h
      by_cases h2 : p.scriptType = "build"
      · simp only [h2, if_true] at h
        cases hl : env.softLoad entry.2 with
        | some plugin =>
          rw [hl] at h
          simp only at h
          by_cases h3 : (st.scriptPlugins.lookup entry.2).isSome
          · simp [h3] at h
          · simp only [h3, Bool.false_eq_true, if_false, Except.ok.injEq] at h
            subst h; left; rfl
        | none =>
          rw [hl] at h
          simp only [Except.ok.injEq] at h
          subst h; left; rfl
      · simp only [h2, if_false] at h
        by_cases h4 : p.scriptType = "mount"
        · simp only [h4, if_true] at h
          cases hm : parseMountCmd env entry.1 entry.2 with
          | error e => rw [hm] at h; exact absurd h (by simp)
          | ok m =>
            rw [hm] at h
            simp only [Except.ok.injEq] at h
            subst h
            right
            exact ⟨m, parseMountCmd_id hm, rfl⟩
        · simp only [h4, if_false] at h
          by_cases h5 : p.scriptType = "bundle"
          · simp only [h5, if_true] at h
            cases hb : env.softLoad entry.2 with
            | none => rw [hb] at h; exact absurd h (by simp)
            | some b =>
              rw [hb] at h
              simp only [Except.ok.injEq] at h
              subst h; left; rfl
          · simp only [h5, if_false, Except.ok.injEq] at h
            subst h; left; rfl

/-- A key that `List.lookup` cannot find heads no entry of the list. -/
theorem lookup_none_keys {α : Type} {l : List (String × α)} {k : String}
    (h : l.lookup k = none) : ∀ kv ∈ l, kv.1 ≠ k := by
  induction l with
  | nil => intro kv hkv; cases hkv
  | cons a t ih =>
    obtain ⟨a1, a2⟩ := a
    intro kv hkv
    rw [List.lookup] at h
    cases hbeq : k == a1 with
    | true => rw [hbeq] at h; cases h
    | false =>
      rw [hbeq] at h
      cases hkv with
      | head =>
        intro hk
        simp only at hk
        rw [hk] at hbeq
        simp at hbeq
      | tail _ ht => exact ih h kv ht

/-- Invariant of the scripts pass: every script-derived plugin entry is keyed
by a specifier the soft loader resolved, its `name` is that key, and its
`input` is a non-empty extension list. -/
theorem processScripts_scriptPlugins_shape {env : PluginEnv}
    {config : SnowpackConfig} {st : ScriptState}
    (h : processScripts env config = .ok st) :
    ∀ kv ∈ st.scriptPlugins, (env.softLoad kv.1).isSome ∧
      kv.2.name = some kv.1 ∧
      ∃ l, kv.2.input = some (.list l) ∧ l ≠ [] := by
  refine exceptFoldl_ok_preserve (P := fun s => ∀ kv ∈ s.scriptPlugins,
    (env.softLoad kv.1).isSome ∧ kv.2.name = some kv.1 ∧
    ∃ l, kv.2.input = some (.list l) ∧ l ≠ []) ?_ ?_ h
  · intro s entry s2 _ hP hstep
    rcases processScript_scriptPlugins hstep with heq | ⟨plugin, p, hl, hp, heq⟩
    · intro kv hkv
      rw [heq] at hkv
      exact hP kv hkv
    · intro kv hkv
      rw [heq] at hkv
      rcases List.mem_append.mp hkv with hin | hnew
      · exact hP kv hin
      · rw [List.mem_singleton.mp hnew]
        refine ⟨by rw [hl]; rfl, rfl, p.extensions, rfl, ?_⟩
        exact parseScript_extensions_ne_nil hp
  · intro kv hkv
    cases hkv

/-- Invariant of the scripts pass: when no directive key is the reserved
mount id, no mounted dir produced by the pass carries it either. -/
theorem processScripts_mount_ids {env : PluginEnv} {config : SnowpackConfig}
    {st : ScriptState} (h : processScripts env config = .ok st)
    (hk : ∀ kv ∈ config.scripts, kv.1 ≠ "mount:web_modules") :
    ∀ m ∈ st.mountedDirs, m.id ≠ "mount:web_modules" := by
  refine exceptFoldl_ok_preserve (P := fun s => ∀ m ∈ s.mountedDirs,
    m.id ≠ "mount:web_modules") ?_ ?_ h
  · intro s entry s2 hmem hP hstep
    rcases processScript_mountedDirs hstep with heq | ⟨m, hid, heq⟩
    · intro m hm
      rw [heq] at hm
      exact hP m hm
    · intro m' hm'
      rw [heq] at hm'
      rcases List.mem_append.mp hm' with hin | hnew
      · exact hP m' hin
      · rw [List.mem_singleton.mp hnew, hid]
        exact hk entry hmem
  · intro m hm
    cases hm

/-! ## Lemmas about the pipeline indexer -/

/-- Append under an optional sequence: the pipeline entry that results from
adding `l` after an existing entry `o` (`none` = key not yet created). -/
def optCat {α : Type} (o : Option (List α)) (l : List α) : Option (List α) :=
  match o, l with
  | none, [] => none
  | none, l => some l
  | some a, l => some (a ++ l)

theorem optCat_nil {α : Type} (o : Option (List α)) : optCat o [] = o := by
  cases o <;> simp [optCat]

theorem optCat_none {α : Type} [DecidableEq α] (l : List α) :
    optCat none l = if l = [] then none else some l := by
  cases l <;> simp [optCat]

theorem optCat_optCat {α : Type} (o : Option (List α)) (a b : List α) :
    optCat (optCat o a) b = optCat o (a ++ b) := by
  cases o with
  | some x => simp [optCat]
  | none =>
    cases a with
    | nil => simp [optCat]
    | cons x xs =>
      cases b <;> simp [optCat]

theorem strBeq_false_of_ne {k k' : String} (h : ¬ k' = k) :
    (k' == k) = false := by
  cases hb : k' == k
  · rfl
  · exact absurd (by simpa using hb) h

theorem lookup_append_singleton_self {α : Type} :
    ∀ (m : List (String × α)) (k : String) (v : α), m.lookup k = none →
      (m ++ [(k, v)]).lookup k = some v := by
  intro m
  induction m with
  | nil => intro k v _; simp [List.lookup]
  | cons a t ih =>
    intro k v h
    obtain ⟨a1, a2⟩ := a
    rw [List.lookup] at h
    cases hbeq : k == a1 with
    | true => rw [hbeq] at h; cases h
    | false =>
      rw [hbeq] at h
      simp only [List.cons_append, List.lookup, hbeq]
      exact ih k v h

theorem lookup_append_singleton_ne {α : Type} :
    ∀ (m : List (String × α)) (k k' : String) (v : α), ¬ k' = k →
      (m ++ [(k, v)]).lookup k' = m.lookup k' := by
  intro m
  induction m with
  | nil =>
    intro k k' v h
    simp only [List.nil_append, List.lookup, strBeq_false_of_ne h]
  | cons a t ih =>
    intro k k' v h
    obtain ⟨a1, a2⟩ := a
    simp only [List.cons_append, List.lookup]
    cases hbeq : k' == a1
    · exact ih k k' v h
    · rfl

theorem lookup_mapSet_self {α : Type} (k : String) (v : α) :
    ∀ (m : List (String × α)), (m.lookup k).isSome →
      (m.map (fun kv => if kv.1 = k then (k, v) else kv)).lookup k = some v := by
  intro m
  induction m with
  | nil => intro h; simp [List.lookup] at h
  | cons a t ih =>
    intro h
    obtain ⟨a1, a2⟩ := a
    by_cases ha : a1 = k
    · simp only [List.map_cons]
      rw [if_pos (show (a1, a2).1 = k from ha)]
      simp [List.lookup]
    · simp only [List.map_cons]
      rw [if_neg (show ¬ (a1, a2).1 = k from ha)]
      have hbeq : (k == a1) = false := by
        cases hb : k == a1
        · rfl
        · exact absurd ((by simpa using hb : k = a1)).symm ha
      simp only [List.lookup, hbeq]
      rw [List.lookup, hbeq] at h
      exact ih h

theorem lookup_mapSet_ne {α : Type} (k k' : String) (v : α) (h : ¬ k' = k) :
    ∀ (m : List (String × α)),
      (m.map (fun kv => if kv.1 = k then (k, v) else kv)).lookup k' =
        m.lookup k' := by
  intro m
  induction m with
  | nil => rfl
  | cons a t ih =>
    obtain ⟨a1, a2⟩ := a
    by_cases ha : a1 = k
    · simp only [List.map_cons]
      rw [if_pos (show (a1, a2).1 = k from ha)]
      have h1 : (k' == k) = false := strBeq_false_of_ne h
      have h2 : (k' == a1) = false := strBeq_false_of_ne (by rw [ha]; exact h)
      simp only [List.lookup, h1, h2]
      exact ih
    · simp only [List.map_cons]
      rw [if_neg (show ¬ (a1, a2).1 = k from ha)]
      simp only [List.lookup]
      cases k' == a1
      · exact ih
      · rfl

theorem lookup_recordSet_self {α : Type} (m : List (String × α)) (k : String)
    (v : α) (h : (m.lookup k).isSome) : (recordSet m k v).lookup k = some v := by
  unfold recordSet
  rw [if_pos h]
  exact lookup_mapSet_self k v m h

theorem lookup_recordSet_ne {α : Type} (m : List (String × α)) (k k' : String)
    (v : α) (h : ¬ k' = k) : (recordSet m k v).lookup k' = m.lookup k' := by
  unfold recordSet
  by_cases hs : (m.lookup k).isSome
  · rw [if_pos hs]
    exact lookup_mapSet_ne k k' v h m
  · rw [if_neg hs]
    exact lookup_append_singleton_ne m k k' v h

theorem lookup_pipelineAdd_self (p : SnowpackPlugin)
    (pl : List (String × List SnowpackPlugin)) (ext : String) :
    (pipelineAdd p pl ext).lookup ext =
      some (((pl.lookup ext).getD []) ++ [p]) := by
  unfold pipelineAdd
  cases hl : pl.lookup ext with
  | some seq =>
    rw [lookup_recordSet_self pl ext (seq ++ [p]) (by rw [hl]; rfl)]
    simp
  | none =>
    rw [lookup_append_singleton_self pl ext [p] hl]
    simp

theorem lookup_pipelineAdd_ne (p : SnowpackPlugin)
    (pl : List (String × List SnowpackPlugin)) (ext ext' : String)
    (h : ¬ ext' = ext) :
    (pipelineAdd p pl ext).lookup ext' = pl.lookup ext' := by
  unfold pipelineAdd
  cases hl : pl.lookup ext with
  | some seq => exact lookup_recordSet_ne pl ext ext' (seq ++ [p]) h
  | none => exact lookup_append_singleton_ne pl ext ext' [p] h

theorem lookup_foldl_pipelineAdd (p : SnowpackPlugin) :
    ∀ (exts : List String) (pl : List (String × List SnowpackPlugin))
      (ext : String), exts.Nodup →
      (exts.foldl (pipelineAdd p) pl).lookup ext =
        optCat (pl.lookup ext) (if ext ∈ exts then [p] else []) := by
  intro exts
  induction exts with
  | nil =>
    intro pl ext _
    simp [optCat_nil]
  | cons e rest ih =>
    intro pl ext hnd
    have hne : e ∉ rest := (List.nodup_cons.mp hnd).1
    have hndr : rest.Nodup := (List.nodup_cons.mp hnd).2
    simp only [List.foldl_cons]
    rw [ih (pipelineAdd p pl e) ext hndr]
    by_cases hee : ext = e
    · subst hee
      rw [if_neg hne, if_pos (List.mem_cons_self ext rest)]
      rw [optCat_nil, lookup_pipelineAdd_self]
      cases hl : pl.lookup ext <;> simp [optCat]
    · rw [lookup_pipelineAdd_ne p pl e ext hee]
      simp only [List.mem_cons, hee, false_or]

theorem lookup_foldl_pipeline :
    ∀ (plugins : List SnowpackPlugin)
      (pl : List (String × List SnowpackPlugin)) (ext : String),
      (∀ p ∈ plugins, (pluginInputs p).Nodup) →
      ((plugins.foldl (fun pipeline plugin =>
          (pluginInputs plugin).foldl (pipelineAdd plugin) pipeline) pl).lookup
        ext) =
        optCat (pl.lookup ext)
          (plugins.filter (fun p => ext ∈ pluginInputs p)) := by
  intro plugins
  induction plugins with
  | nil =>
    intro pl ext _
    simp [optCat_nil]
  | cons q rest ih =>
    intro pl ext hnd
    simp only [List.foldl_cons]
    rw [ih _ ext (fun p hp => hnd p (List.mem_cons_of_mem q hp))]
    rw [lookup_foldl_pipelineAdd q (pluginInputs q) pl ext
      (hnd q (List.mem_cons_self q rest))]
    rw [optCat_optCat]
    by_cases hq : ext ∈ pluginInputs q
    · simp [List.filter_cons, hq]
    · simp [List.filter_cons, hq]

/-- The pipeline maps each extension to exactly the plugins whose inputs
contain it, in plugin-list order; an extension no plugin accepts has no
entry. -/
theorem lookup_createBuildPipeline (plugins : List SnowpackPlugin)
    (ext : String) (hnd : ∀ p ∈ plugins, (pluginInputs p).Nodup) :
    (createBuildPipeline plugins).lookup ext =
      if (plugins.filter (fun p => ext ∈ pluginInputs p)) = [] then none
      else some (plugins.filter (fun p => ext ∈ pluginInputs p)) := by
  unfold createBuildPipeline
  rw [lookup_foldl_pipeline plugins [] ext hnd]
  rw [show ([] : List (String × List SnowpackPlugin)).lookup ext = none from rfl]
  exact optCat_none _

/-! ## Tokenization lemmas for the mount command -/

theorem wsSplitAux_nonws_run :
    ∀ (t cs cur : List Char), (∀ c ∈ t, ¬ c.isWhitespace = true) →
      wsSplitAux (t ++ cs) (some cur) =
        wsSplitAux cs (some (t.reverse ++ cur)) := by
  intro t
  induction t with
  | nil => intro cs cur _; simp
  | cons c t ih =>
    intro cs cur h
    have hc : c.isWhitespace = false := by
      have := h c (List.mem_cons_self c t)
      simp at this
      exact this
    show wsSplitAux (c :: (t ++ cs)) (some cur) = _
    rw [wsSplitAux, hc]
    simp only [Bool.false_eq_true, if_false, Option.getD_some]
    rw [ih cs (c :: cur) (fun x hx => h x (List.mem_cons_of_mem c hx))]
    simp

theorem wsSplitAux_ws_some (c : Char) (cs cur : List Char)
    (hc : c.isWhitespace = true) :
    wsSplitAux (c :: cs) (some cur) =
      String.mk cur.reverse :: wsSplitAux cs none := by
  rw [wsSplitAux, hc]
  simp

theorem wsSplitAux_none_nonws (c : Char) (cs : List Char)
    (hc : c.isWhitespace = false) :
    wsSplitAux (c :: cs) none = wsSplitAux cs (some [c]) := by
  rw [wsSplitAux, hc]
  simp

/-- A leading whitespace-free token followed by a space: emit the token. -/
theorem wsSplitAux_first_token (tok rest : List Char)
    (h : ∀ c ∈ tok, ¬ c.isWhitespace = true) :
    wsSplitAux (tok ++ ' ' :: rest) (some []) =
      String.mk tok :: wsSplitAux rest none := by
  rw [wsSplitAux_nonws_run tok (' ' :: rest) [] h]
  rw [wsSplitAux_ws_some ' ' rest (tok.reverse ++ []) (by decide)]
  simp

/-- A whitespace-free token after a separator, followed by a space. -/
theorem wsSplitAux_token (tok rest : List Char) (hne : tok ≠ [])
    (h : ∀ c ∈ tok, ¬ c.isWhitespace = true) :
    wsSplitAux (tok ++ ' ' :: rest) none =
      String.mk tok :: wsSplitAux rest none := by
  cases tok with
  | nil => exact absurd rfl hne
  | cons c cs =>
    show wsSplitAux (c :: (cs ++ ' ' :: rest)) none = _
    rw [wsSplitAux_none_nonws c (cs ++ ' ' :: rest)
      (by have := h c (List.mem_cons_self c cs); simpa using this)]
    rw [wsSplitAux_nonws_run cs (' ' :: rest) [c]
      (fun x hx => h x (List.mem_cons_of_mem c hx))]
    rw [wsSplitAux_ws_some ' ' rest (cs.reverse ++ [c]) (by decide)]
    simp

/-- A trailing whitespace-free token after a separator: the last token. -/
theorem wsSplitAux_last_token (tok : List Char) (hne : tok ≠ [])
    (h : ∀ c ∈ tok, ¬ c.isWhitespace = true) :
    wsSplitAux tok none = [String.mk tok] := by
  cases tok with
  | nil => exact absurd rfl hne
  | cons c cs =>
    rw [wsSplitAux_none_nonws c cs
      (by have := h c (List.mem_cons_self c cs); simpa using this)]
    have hrun := wsSplitAux_nonws_run cs [] [c]
      (fun x hx => h x (List.mem_cons_of_mem c hx))
    rw [List.append_nil] at hrun
    rw [hrun]
    show [String.mk (cs.reverse ++ [c]).reverse] = _
    simp

theorem stringMk_data (s : String) : String.mk s.data = s := by
  cases s
  rfl

/-- `"mount <dir>".split(/\s+/) = ["mount", dir]` for a non-empty,
whitespace-free `dir`. -/
theorem splitWs_mount_dir (dir : String) (hne : dir.data ≠ [])
    (hws : ∀ c ∈ dir.data, ¬ c.isWhitespace = true) :
    splitWs ("mount " ++ dir) = ["mount", dir] := by
  unfold splitWs
  have hdata : ("mount " ++ dir).data =
      ['m', 'o', 'u', 'n', 't'] ++ ' ' :: dir.data := by
    rw [String.data_append]
    rfl
  rw [hdata]
  rw [wsSplitAux_first_token ['m', 'o', 'u', 'n', 't'] dir.data (by decide)]
  rw [wsSplitAux_last_token dir.data hne hws]

/-- `"mount <dir> --to <to>".split(/\s+/) = ["mount", dir, "--to", to]` for
non-empty, whitespace-free `dir` and `to`. -/
theorem splitWs_mount_dir_to (dir toArg : String) (hdne : dir.data ≠ [])
    (hdws : ∀ c ∈ dir.data, ¬ c.isWhitespace = true)
    (htne : toArg.data ≠ [])
    (htws : ∀ c ∈ toArg.data, ¬ c.isWhitespace = true) :
    splitWs ("mount " ++ dir ++ " --to " ++ toArg) =
      ["mount", dir, "--to", toArg] := by
  unfold splitWs
  have hdata : ("mount " ++ dir ++ " --to " ++ toArg).data =
      ['m', 'o', 'u', 'n', 't'] ++ ' ' ::
        (dir.data ++ ' ' :: (['-', '-', 't', 'o'] ++ ' ' :: toArg.data)) := by
    simp only [String.data_append, List.append_assoc]
    rfl
  rw [hdata]
  rw [wsSplitAux_first_token ['m', 'o', 'u', 'n', 't'] _ (by decide)]
  rw [wsSplitAux_token dir.data _ hdne hdws]
  rw [wsSplitAux_token ['-', '-', 't', 'o'] _ (by decide) (by decide)]
  rw [wsSplitAux_last_token toArg.data htne htws]

/-! ## Evaluating the mount parser on well-formed commands -/

theorem yargsParseTo_one (dir : String) (h : jsFirstCharIs dir '-' = false) :
    yargsParseTo [dir] = (.absent, [dir]) := by
  simp [yargsParseTo, h]

theorem yargsParseTo_dir_to (dir toArg : String)
    (h1 : jsFirstCharIs dir '-' = false)
    (h2 : jsFirstCharIs toArg '-' = false) :
    yargsParseTo [dir, "--to", toArg] = (.str toArg, [dir]) := by
  have hflag : jsFirstCharIs "--to" '-' = true := by decide
  simp [yargsParseTo, h1, h2, hflag]

theorem firstChar_ne {s : String} {a b : Char}
    (h : jsFirstCharIs s a = true) (hab : ¬ a = b) :
    jsFirstCharIs s b = false := by
  unfold jsFirstCharIs at h ⊢
  have h' : s.data.head? = some a := by simpa using h
  rw [h']
  simpa using hab

theorem str_ne_empty_of_data_ne_nil {s : String} (h : s.data ≠ []) :
    ¬ s = "" := by
  intro he
  subst he
  exact h rfl

/-- Evaluating the mount case on a well-formed `mount <dir>` command (no
`--to`): `fromDisk = normalize(dir + "/")`, `toUrl = normalize("/" + dir + "/")`. -/
theorem parseMountCmd_no_to (env : PluginEnv) (target dir : String)
    (htarget : ¬ target = "mount:web_modules")
    (hdne : dir.data ≠ []) (hdws : ∀ c ∈ dir.data, ¬ c.isWhitespace = true)
    (hdd : jsFirstCharIs dir '-' = false) :
    parseMountCmd env target ("mount " ++ dir) =
      .ok ⟨target, posixNormalize (dir ++ "/"),
        posixNormalize ("/" ++ dir ++ "/")⟩ := by
  simp only [parseMountCmd, splitWs_mount_dir dir hdne hdws]
  simp [yargsParseTo_one dir hdd, YargsTo.truthy, htarget]

/-- Evaluating the mount case on a well-formed `mount <dir> --to <to>`
command with an absolute `to`: `fromDisk = normalize(dir + "/")`,
`toUrl = normalize(to + "/")`. -/
theorem parseMountCmd_with_to (env : PluginEnv) (target dir toArg : String)
    (htarget : ¬ target = "mount:web_modules")
    (hdne : dir.data ≠ []) (hdws : ∀ c ∈ dir.data, ¬ c.isWhitespace = true)
    (hdd : jsFirstCharIs dir '-' = false)
    (htws : ∀ c ∈ toArg.data, ¬ c.isWhitespace = true)
    (hslash : jsFirstCharIs toArg '/' = true) :
    parseMountCmd env target ("mount " ++ dir ++ " --to " ++ toArg) =
      .ok ⟨target, posixNormalize (dir ++ "/"),
        posixNormalize (toArg ++ "/")⟩ := by
  have htne : toArg.data ≠ [] := by
    intro he
    unfold jsFirstCharIs at hslash
    rw [he] at hslash
    simp at hslash
  have htd : jsFirstCharIs toArg '-' = false := firstChar_ne hslash (by decide)
  have htne' : ¬ toArg = "" := str_ne_empty_of_data_ne_nil htne
  simp only [parseMountCmd, splitWs_mount_dir_to dir toArg hdne hdws htne htws]
  simp [yargsParseTo_dir_to dir toArg hdd htd, YargsTo.truthy, htarget,
    YargsTo.headIsSlash, hslash, htne', YargsTo.asString]

/-! ## Concrete fixtures for witnesses and counterexamples -/

/-- A bare factory result declaring none of the optional fields. -/
def examplePlugin : SnowpackPlugin := ⟨none, none, none, none⟩

/-- Environment whose soft loader resolves only the specifier `plugin-a`. -/
def exampleEnv : PluginEnv :=
  ⟨fun s => if s = "plugin-a" then some examplePlugin else none,
   fun _ _ => none, "node_modules/.cache/snowpack/dev"⟩

/-- Environment whose hard loader resolves `my-plugin` to a plugin instance
that declares its own `name` and `input`. -/
def exampleEnvNamed : PluginEnv :=
  ⟨fun _ => none,
   fun s _ =>
     if s = "my-plugin" then
       some ⟨some "declared-name", some (.list [".js"]), none, none⟩
     else none,
   "node_modules/.cache/snowpack/dev"⟩

/-- A plugin with a two-extension `input` list. -/
def examplePluginA : SnowpackPlugin :=
  ⟨some "plugin-list-input", some (.list ["js", "jsx"]), none, none⟩

/-- A plugin whose `input` is a single extension string. -/
def examplePluginB : SnowpackPlugin :=
  ⟨some "plugin-string-input", some (.str "js"), none, none⟩

/-! ## Claim theorems -/

/-- Claim C1 (code bug): the spec says two `build:` directives that resolve
to the same plugin specifier union their extension sets into a single entry,
and the source comment on line 70 says the same; the code instead reads
`loadPlugins[pluginName]` — a property of the enclosing *function object*,
which is `undefined` — and destructuring it throws a `TypeError`; the
resolution pass dies instead of unioning (and even absent the throw, lines
72/73 assign the unions to local variables that are never stored back). This
theorem evaluates the resolver at such a configuration and observes the
thrown error. -/
theorem duplicate_build_specifier_throws :
    loadPlugins ⟨[("build:js", "plugin-a"), ("build:css", "plugin-a")], []⟩
      exampleEnv = .error (.typeErrorDuplicateBuildPlugin "plugin-a") := by
  decide

/-- Claim C2 (code bug): the spec and the `parseScript` doc comment promise
extensions normalized to exactly one leading dot, with `"build:js,jsx"`
yielding `{".js", ".jsx"}`; but `` `.${ext}`.replace(/^\./, '') `` prepends a
dot and then strips it again, so the code returns the bare tokens
`["js", "jsx"]` and never adds a dot. -/
theorem parseScript_extensions_keep_no_dots :
    parseScript "build:js,jsx" = some ⟨"build", ["js", "jsx"]⟩ ∧
    ¬ parseScript "build:js,jsx" = some ⟨"build", [".js", ".jsx"]⟩ := by
  decide

/-- Claim C3 (confirmed): on every configuration where resolution succeeds,
every plugin in the final list has a non-empty `name` and a non-empty
`input` set. Script-derived plugins get `name := specifier` (non-empty
because the empty specifier never resolves — hypothesis `hempty`, a fact of
module resolution) and `input := extensions` (a non-empty list, since
splitting on `,` always yields at least one token); explicitly configured
plugins never survive to a successful result because line 173 throws, so the
property holds for them vacuously. -/
theorem final_plugins_have_name_and_input (config : SnowpackConfig)
    (env : PluginEnv) (res : LoadResult) (hempty : env.softLoad "" = none)
    (h : loadPlugins config env = .ok res) :
    ∀ p ∈ res.plugins, (∃ n, p.name = some n ∧ ¬ n = "") ∧
      ∃ l, p.input = some (.list l) ∧ l ≠ [] := by
  obtain ⟨st, hs, hnil, hres⟩ := loadPlugins_ok_elim h
  subst hres
  intro p hp
  simp only at hp
  obtain ⟨kv, hkv, rfl⟩ := List.mem_map.mp hp
  obtain ⟨hsl, hname, l, hinp, hlne⟩ :=
    processScripts_scriptPlugins_shape hs kv hkv
  refine ⟨⟨kv.1, hname, ?_⟩, l, hinp, hlne⟩
  intro h0
  rw [h0, hempty] at hsl
  simp at hsl

/-- The successful resolution result used by the C3 witness. -/
def exampleResC3 : LoadResult :=
  ⟨[⟨some "plugin-a", some (.list ["js"]), some (.list ["js"]), none⟩],
   none, [], [],
   [⟨"mount:web_modules", "node_modules/.cache/snowpack/dev",
     "/web_modules"⟩]⟩

theorem final_plugins_have_name_and_input_witness :
    exampleEnv.softLoad "" = none ∧
    loadPlugins ⟨[("build:js", "plugin-a")], []⟩ exampleEnv =
      .ok exampleResC3 ∧
    ∀ p ∈ exampleResC3.plugins, (∃ n, p.name = some n ∧ ¬ n = "") ∧
      ∃ l, p.input = some (.list l) ∧ l ≠ [] :=
  ⟨by decide, by decide,
   final_plugins_have_name_and_input ⟨[("build:js", "plugin-a")], []⟩
     exampleEnv exampleResC3 (by decide) (by decide)⟩

/-- Claim C4 (code bug): the spec says an explicitly configured plugin's
declared `name` is preserved and the specifier backfills only an absent
name; the code's check on line 173 is `if (!name)` — but no variable `name`
is in scope (the intended check, by analogy with the bundler path's
`if (!bundler.name)` on line 130, is `plugin.name`), so evaluating it throws
a `ReferenceError` and the declared name is never preserved: resolution dies
on every explicitly configured plugin. This theorem evaluates the resolver
on a plugin that declares `name: "declared-name"` and observes the throw. -/
theorem explicit_plugin_declared_name_lost :
    loadPlugins ⟨[], [.bare "my-plugin"]⟩ exampleEnvNamed =
      .error (.referenceErrorName "my-plugin") := by
  decide

/-- Claim C5, counterexample: with no `mount:web_modules` directive (empty
scripts), the synthetic dependency-directory entry is the single element of
the mount list, and its `toUrl` is the literal `"/web_modules"` — the push on
lines 140-145 bypasses the trailing-slash normalization applied to user
mounts, so no entry with the claimed `toUrl = "/web_modules/"` exists. -/
theorem synthetic_web_modules_no_trailing_slash :
    loadPlugins ⟨[], []⟩ exampleEnv =
      .ok ⟨[], none, [], [],
        [⟨"mount:web_modules", "node_modules/.cache/snowpack/dev",
          "/web_modules"⟩]⟩ ∧
    ¬ ("/web_modules" : String) = "/web_modules/" := by
  decide

/-- Claim C5 (corrected): when no directive carries the reserved id
`mount:web_modules`, the mount list contains exactly one entry with that id —
the synthetic one for the internal dependency directory — but its `toUrl` is
`"/web_modules"` with *no* trailing separator (and its `fromDisk` is the raw
`DEV_DEPENDENCIES_DIR`, unnormalized), unlike every user-declared mount. -/
theorem synthetic_web_modules_mount (config : SnowpackConfig)
    (env : PluginEnv) (res : LoadResult)
    (hnone : config.scripts.lookup "mount:web_modules" = none)
    (h : loadPlugins config env = .ok res) :
    res.mountedDirs.filter (fun m => m.id == "mount:web_modules") =
      [⟨"mount:web_modules", env.devDependenciesDir, "/web_modules"⟩] := by
  obtain ⟨st, hs, hnil, hres⟩ := loadPlugins_ok_elim h
  subst hres
  simp only [hnone]
  rw [show strTruthy none = false from rfl]
  simp only [Bool.false_eq_true, if_false, List.filter_append]
  have hids := processScripts_mount_ids hs (lookup_none_keys hnone)
  have h1 : st.mountedDirs.filter (fun m => m.id == "mount:web_modules") =
      [] := by
    rw [List.filter_eq_nil_iff]
    intro m hm
    simpa using hids m hm
  rw [h1]
  simp

theorem synthetic_web_modules_mount_witness :
    ([("run:lint", "eslint .")] : List (String × String)).lookup
      "mount:web_modules" = none ∧
    loadPlugins ⟨[("run:lint", "eslint .")], []⟩ exampleEnv =
      .ok ⟨[], none, [⟨"run:lint", "eslint ."⟩], [],
        [⟨"mount:web_modules", "node_modules/.cache/snowpack/dev",
          "/web_modules"⟩]⟩ ∧
    (LoadResult.mk [] none [⟨"run:lint", "eslint ."⟩] []
        [⟨"mount:web_modules", "node_modules/.cache/snowpack/dev",
          "/web_modules"⟩]).mountedDirs.filter
        (fun m => m.id == "mount:web_modules") =
      [⟨"mount:web_modules", exampleEnv.devDependenciesDir,
        "/web_modules"⟩] :=
  ⟨by decide, by decide,
   synthetic_web_modules_mount ⟨[("run:lint", "eslint .")], []⟩ exampleEnv
     _ (by decide) (by decide)⟩

/-- Claim C6, counterexample: the claim says only the scriptType is
lower-cased and `"js"`/`"JS"` stay distinct extension elements; but
`parseScript` calls `.toLowerCase()` on the *whole* key before splitting, so
`"build:js,JS"` collapses to the single element `"js"` (the claimed distinct
`"JS"` is absent). -/
theorem classifier_lowercases_whole_key :
    parseScript "build:js,JS" = some ⟨"build", ["js"]⟩ := by
  decide

/-- Claim C6 (corrected): the Directive Classifier lower-cases the *entire*
key — extension tokens included — before splitting, so two extension tokens
differing only in case collapse into a single lower-cased element; the
returned extension list never contains duplicates. -/
theorem classifier_extensions_nodup (key : String) (p : ParsedScript)
    (h : parseScript key = some p) :
    p.extensions.Nodup ∧
    parseScript "build:css,CSS" = some ⟨"build", ["css"]⟩ :=
  ⟨parseScript_extensions_nodup h, by decide⟩

theorem classifier_extensions_nodup_witness :
    parseScript "build:js,JS" = some ⟨"build", ["js"]⟩ ∧
    ((ParsedScript.mk "build" ["js"]).extensions.Nodup ∧
      parseScript "build:css,CSS" = some ⟨"build", ["css"]⟩) :=
  ⟨by decide,
   classifier_extensions_nodup "build:js,JS" ⟨"build", ["js"]⟩ (by decide)⟩

/-- Claim C7 (confirmed): for a well-formed mount command — first token
`mount`, one positional whitespace-free directory that is not flag-like, an
optional `--to` value starting with `/` — the parser produces
`fromDisk = normalize(dir + "/")` and
`toUrl = normalize((to if given, else "/" + dir) + "/")`. (The reserved
directive id `mount:web_modules` is excluded: there the code substitutes
`DEV_DEPENDENCIES_DIR` for the directory argument.) -/
theorem mount_directive_wellformed (env : PluginEnv)
    (target dir toArg : String)
    (htarget : ¬ target = "mount:web_modules")
    (hdne : dir.data ≠ []) (hdws : ∀ c ∈ dir.data, ¬ c.isWhitespace = true)
    (hdd : jsFirstCharIs dir '-' = false)
    (htws : ∀ c ∈ toArg.data, ¬ c.isWhitespace = true)
    (hslash : jsFirstCharIs toArg '/' = true) :
    parseMountCmd env target ("mount " ++ dir) =
      .ok ⟨target, posixNormalize (dir ++ "/"),
        posixNormalize ("/" ++ dir ++ "/")⟩ ∧
    parseMountCmd env target ("mount " ++ dir ++ " --to " ++ toArg) =
      .ok ⟨target, posixNormalize (dir ++ "/"),
        posixNormalize (toArg ++ "/")⟩ :=
  ⟨parseMountCmd_no_to env target dir htarget hdne hdws hdd,
   parseMountCmd_with_to env target dir toArg htarget hdne hdws hdd htws
     hslash⟩

theorem mount_directive_wellformed_witness :
    ¬ ("mount:foo" : String) = "mount:web_modules" ∧
    parseMountCmd exampleEnv "mount:foo" "mount src" =
      .ok ⟨"mount:foo", "src/", "/src/"⟩ ∧
    parseMountCmd exampleEnv "mount:foo" "mount src --to /app" =
      .ok ⟨"mount:foo", "src/", "/app/"⟩ := by
  have h := mount_directive_wellformed exampleEnv "mount:foo" "src" "/app"
    (by decide) (by decide) (by decide) (by decide) (by decide) (by decide)
  exact ⟨by decide, h.1, h.2⟩

/-- Claim C8 (confirmed): a specifier registered by a successful `build:`
soft load that also appears in the explicit plugin list aborts resolution
with the `AmbiguousPluginRegistration` error (`[name]: loaded in both
scripts and plugins`): no result is ever returned, and when that reference
is the first one processed, the reported error is exactly the ambiguity
error. -/
theorem ambiguous_plugin_registration_aborts (config : SnowpackConfig)
    (env : PluginEnv) (st : ScriptState) (spec : String) (ref : PluginRef)
    (rest : List PluginRef)
    (hs : processScripts env config = .ok st)
    (hreg : (st.scriptPlugins.lookup spec).isSome) :
    (spec ∈ config.plugins.map PluginRef.specifier →
      ∀ res, ¬ loadPlugins config env = .ok res) ∧
    (config.plugins = ref :: rest → ref.specifier = spec →
      loadPlugins config env = .error (.ambiguousPluginRegistration spec)) := by
  constructor
  · intro hmem res hok
    obtain ⟨st', hs', hnil, _⟩ := loadPlugins_ok_elim hok
    rw [hnil] at hmem
    cases hmem
  · intro hplug hspec
    have hstep : processPluginRef env st.scriptPlugins
        (st.scriptPlugins.map (fun kv => kv.2)) ref =
          .error (.ambiguousPluginRegistration spec) := by
      unfold processPluginRef
      rw [hspec, if_pos hreg]
    unfold loadPlugins
    rw [hs]
    simp only
    rw [hplug, exceptFoldl, hstep]

/-- The script state the C8 witness reaches after its single directive. -/
def exampleStC8 : ScriptState :=
  ⟨[("plugin-a",
      ⟨some "plugin-a", some (.list ["js"]), some (.list ["js"]), none⟩)],
   [], [], [], none⟩

theorem ambiguous_plugin_registration_aborts_witness :
    processScripts exampleEnv
      ⟨[("build:js", "plugin-a")], [.bare "plugin-a"]⟩ = .ok exampleStC8 ∧
    (exampleStC8.scriptPlugins.lookup "plugin-a").isSome ∧
    loadPlugins ⟨[("build:js", "plugin-a")], [.bare "plugin-a"]⟩ exampleEnv =
      .error (.ambiguousPluginRegistration "plugin-a") :=
  ⟨by decide, by decide,
   (ambiguous_plugin_registration_aborts
     ⟨[("build:js", "plugin-a")], [.bare "plugin-a"]⟩ exampleEnv exampleStC8
     "plugin-a" (.bare "plugin-a") [] (by decide) (by decide)).2 rfl rfl⟩

/-- Claim C9 (confirmed): the Pipeline Indexer maps each extension to
exactly the plugins whose `input` set contains it, in plugin-list order
(an extension accepted by no plugin has no entry), and it is deterministic —
re-indexing the same list trivially yields the same mapping, since the
embedding is a pure function. The `Nodup` hypothesis mirrors the data-model
invariant that a plugin's `input` is a set (duplicate-free). -/
theorem pipeline_indexes_by_input (plugins : List SnowpackPlugin)
    (ext : String) (hnd : ∀ p ∈ plugins, (pluginInputs p).Nodup) :
    ((createBuildPipeline plugins).lookup ext =
      if (plugins.filter (fun p => ext ∈ pluginInputs p)) = [] then none
      else some (plugins.filter (fun p => ext ∈ pluginInputs p))) ∧
    createBuildPipeline plugins = createBuildPipeline plugins :=
  ⟨lookup_createBuildPipeline plugins ext hnd, rfl⟩

theorem pipeline_indexes_by_input_witness :
    (∀ p ∈ [examplePluginA, examplePluginB], (pluginInputs p).Nodup) ∧
    (((createBuildPipeline [examplePluginA, examplePluginB]).lookup "js" =
      if ([examplePluginA, examplePluginB].filter
          (fun p => "js" ∈ pluginInputs p)) = [] then none
      else some ([examplePluginA, examplePluginB].filter
          (fun p => "js" ∈ pluginInputs p))) ∧
    createBuildPipeline [examplePluginA, examplePluginB] =
      createBuildPipeline [examplePluginA, examplePluginB]) :=
  ⟨by decide,
   pipeline_indexes_by_input [examplePluginA, examplePluginB] "js"
     (by decide)⟩

/-- Claim C10 (confirmed): a plugin whose `input` is a single extension
string is treated as a one-element extension list: it lands in that one
extension's pipeline sequence and in no other sequence. -/
theorem single_string_input_single_entry (plugins : List SnowpackPlugin)
    (p : SnowpackPlugin) (e : String)
    (hnd : ∀ q ∈ plugins, (pluginInputs q).Nodup)
    (hmem : p ∈ plugins) (hinp : p.input = some (.str e)) :
    (∃ seq, (createBuildPipeline plugins).lookup e = some seq ∧ p ∈ seq) ∧
    ∀ ext seq, (createBuildPipeline plugins).lookup ext = some seq →
      p ∈ seq → ext = e := by
  have hin : pluginInputs p = [e] := by simp [pluginInputs, hinp]
  have hpf : p ∈ plugins.filter (fun q => e ∈ pluginInputs q) :=
    List.mem_filter.mpr ⟨hmem, by simp [hin]⟩
  constructor
  · refine ⟨plugins.filter (fun q => e ∈ pluginInputs q), ?_, hpf⟩
    rw [lookup_createBuildPipeline plugins e hnd]
    rw [if_neg (List.ne_nil_of_mem hpf)]
  · intro ext seq hlook hpseq
    rw [lookup_createBuildPipeline plugins ext hnd] at hlook
    by_cases hf : (plugins.filter (fun q => ext ∈ pluginInputs q)) = []
    · rw [if_pos hf] at hlook
      cases hlook
    · rw [if_neg hf] at hlook
      injection hlook with hseq
      rw [← hseq] at hpseq
      have := (List.mem_filter.mp hpseq).2
      rw [hin] at this
      simpa using this

theorem single_string_input_single_entry_witness :
    (∀ q ∈ [examplePluginA, examplePluginB], (pluginInputs q).Nodup) ∧
    examplePluginB ∈ [examplePluginA, examplePluginB] ∧
    examplePluginB.input = some (.str "js") ∧
    ((∃ seq, (createBuildPipeline [examplePluginA, examplePluginB]).lookup
        "js" = some seq ∧ examplePluginB ∈ seq) ∧
    ∀ ext seq, (createBuildPipeline
        [examplePluginA, examplePluginB]).lookup ext = some seq →
      examplePluginB ∈ seq → ext = "js") :=
  ⟨by decide, by decide, by decide,
   single_string_input_single_entry [examplePluginA, examplePluginB]
     examplePluginB "js" (by decide) (by decide) (by decide)⟩
